import Mathlib

/-!
Shallow embedding of `src/patch_kernel/yf_patchkernel.c` (YourFritz, "patch
kernel instructions while loading this module").

Modelling choices:
* Kernel memory is word-addressed: `Mem := Nat → Nat`.  One address = one
  32-bit instruction word, matching the C code's `unsigned int *` arithmetic
  (`ptr + n` advances by `n` instruction words).
* Pointers are `Nat`, with `0` playing the role of the C null pointer: the
  source checks `if (!ptr)` after `kallsyms_lookup_name`, and the statically
  initialised result fields `startAddress` / `patchAddress` are zero.
* The external symbol resolver `kallsyms_lookup_name` is a parameter
  `r : String → Nat` (returning 0 on failure, as in the kernel API).
* 32-bit values are `Nat`; the C `&` and `|` are `Nat.land` / `Nat.lor`
  (written `&&&` / `|||`).
* The C `int isPatched` is a `Bool` (the source only ever stores 0 or 1).
-/

abbrev Mem : Type := Nat → Nat

/-- A single word store, `*(a) = v` (lines 180 and 207 of the source). -/
def writeMem (m : Mem) (a v : Nat) : Mem :=
  fun x => if x = a then v else m x

/-- `struct patchEntry` (source lines 74-92), field for field. -/
structure patchEntry where
  fname         : Option String  -- kernel symbol name; C null pointer = none
  startAddress  : Nat            -- result of kallsyms_lookup_name (0 = unset)
  startOffset   : Nat            -- instructions to skip before the first compare
  maxOffset     : Nat            -- maximum number of instructions to scan
  lookFor       : Nat            -- value to look for after masking
  andMask       : Nat            -- AND mask applied to the scanned word
  orMask        : Nat            -- OR mask applied to the scanned word
  verifyOffset  : Nat            -- offset of the verification word; 0 = no check
  verifyValue   : Nat            -- expected verification value after masking
  verifyAndMask : Nat            -- AND mask for verification
  verifyOrMask  : Nat            -- OR mask for verification
  patchOffset   : Nat            -- offset of the word to patch, relative to the hit
  patchValue    : Nat            -- replacement value
  patchAddress  : Nat            -- where the change was applied (0 = unset)
  originalValue : Nat            -- value found there before patching
  isPatched     : Bool           -- patch applied successfully and not reversed
deriving DecidableEq, Repr

/-- Outcome of the scan loop of `yf_patchkernel_patch` for one entry. -/
inductive ScanResult where
  | found (pos : Nat)
  | alreadyApplied
  | notFound
deriving DecidableEq, Repr

/--
The scan loop of `yf_patchkernel_patch` (source lines 159-188), started at
word address `p` with `k` iterations left.  Each iteration, in source order:
read `orgValue = *(ptr + patchOffset)` and break with `alreadyApplied` when it
equals `patchValue` (lines 162-168); otherwise compare the masked word at the
current position against `lookFor` (lines 161, 170); on a hit, when
`verifyOffset` is non-zero, compare the masked word at `ptr + verifyOffset`
against `verifyValue` and `continue` scanning when it differs (lines 172-176);
otherwise the position is the result (lines 178-186).
-/
def scanFrom (m : Mem) (e : patchEntry) : Nat → Nat → ScanResult
  | _, 0 => ScanResult.notFound
  | p, k + 1 =>
    if m (p + e.patchOffset) = e.patchValue then
      ScanResult.alreadyApplied
    else if (m p &&& e.andMask) ||| e.orMask = e.lookFor then
      if e.verifyOffset ≠ 0 then
        if (m (p + e.verifyOffset) &&& e.verifyAndMask) ||| e.verifyOrMask ≠ e.verifyValue then
          scanFrom m e (p + 1) k
        else ScanResult.found p
      else ScanResult.found p
    else scanFrom m e (p + 1) k

/--
The word addresses read by the scan loop, in source order: each iteration
reads `*ptr` (line 161) and `*(ptr + patchOffset)` (line 162); a masked hit
with `verifyOffset ≠ 0` additionally reads `*(ptr + verifyOffset)` (line 174);
the patching branch re-reads `*(patch->patchAddress) = *(ptr + patchOffset)`
(line 179).
-/
def scanReadsFrom (m : Mem) (e : patchEntry) : Nat → Nat → List Nat
  | _, 0 => []
  | p, k + 1 =>
    if m (p + e.patchOffset) = e.patchValue then
      [p, p + e.patchOffset]
    else if (m p &&& e.andMask) ||| e.orMask = e.lookFor then
      if e.verifyOffset ≠ 0 then
        if (m (p + e.verifyOffset) &&& e.verifyAndMask) ||| e.verifyOrMask ≠ e.verifyValue then
          p :: (p + e.patchOffset) :: (p + e.verifyOffset) :: scanReadsFrom m e (p + 1) k
        else [p, p + e.patchOffset, p + e.verifyOffset, p + e.patchOffset]
      else [p, p + e.patchOffset, p + e.patchOffset]
    else p :: (p + e.patchOffset) :: scanReadsFrom m e (p + 1) k

/--
The body of the `while` loop of `yf_patchkernel_patch` for one entry whose
`fname` is `f` (source lines 149-194): resolve the symbol; on failure skip the
entry untouched (lines 151-154); otherwise record the base in `startAddress`
(line 159) and scan from `base + startOffset` for at most `maxOffset` words;
on a hit record `patchAddress` and `originalValue`, store `patchValue` there,
set `isPatched` and count one applied patch (lines 178-182).  Returns the
updated entry, the updated memory and the count contribution (0 or 1).
-/
def patchOne (r : String → Nat) (m : Mem) (f : String) (e : patchEntry) :
    patchEntry × Mem × Nat :=
  let b := r f
  if b = 0 then (e, m, 0)
  else
    match scanFrom m e (b + e.startOffset) e.maxOffset with
    | ScanResult.found q =>
        ({ e with startAddress := b, patchAddress := q + e.patchOffset,
                  originalValue := m (q + e.patchOffset), isPatched := true },
         writeMem m (q + e.patchOffset) e.patchValue, 1)
    | _ => ({ e with startAddress := b }, m, 0)

/--
`yf_patchkernel_patch` (source lines 136-199): process entries until the
first one whose `fname` is null (the end-of-list marker); entries at and
after the marker are untouched.  Returns the updated entries, the final
memory and `patches_applied`.
-/
def applyAll (r : String → Nat) (m : Mem) : List patchEntry → List patchEntry × Mem × Nat
  | [] => ([], m, 0)
  | e :: rest =>
    match e.fname with
    | none => (e :: rest, m, 0)
    | some f =>
      let u := patchOne r m f e
      let v := applyAll r u.2.1 rest
      (u.1 :: v.1, v.2.1, u.2.2 + v.2.2)

/--
The body of the `while` loop of `yf_patchkernel_restore` for one entry
(source lines 205-211): when `isPatched`, store `originalValue` back at
`patchAddress` and clear the flag; otherwise do nothing.  No other field is
touched.
-/
def restoreEntry (m : Mem) (e : patchEntry) : patchEntry × Mem :=
  if e.isPatched then
    ({ e with isPatched := false }, writeMem m e.patchAddress e.originalValue)
  else (e, m)

/--
`yf_patchkernel_restore` (source lines 201-215): process entries until the
first null `fname` marker.
-/
def restoreAll (m : Mem) : List patchEntry → List patchEntry × Mem
  | [] => ([], m)
  | e :: rest =>
    match e.fname with
    | none => (e :: rest, m)
    | some _ =>
      let u := restoreEntry m e
      let v := restoreAll u.2 rest
      (u.1 :: v.1, v.2)

/-- The primary masked compare of the scanner at word address `q`
(source lines 161 and 170). -/
abbrev primMatch (m : Mem) (e : patchEntry) (q : Nat) : Prop :=
  (m q &&& e.andMask) ||| e.orMask = e.lookFor

/-- The verification masked compare for a hit at word address `q`
(source line 174). -/
abbrev verMatch (m : Mem) (e : patchEntry) (q : Nat) : Prop :=
  (m (q + e.verifyOffset) &&& e.verifyAndMask) ||| e.verifyOrMask = e.verifyValue

/--
The result fields of an entry hold live data from a successful, not yet
reversed application: a recorded (non-null) patch address whose word still
holds the replacement value, with an original value that differs from the
replacement (the scanner never patches a word already equal to `patchValue`).
-/
abbrev resultValid (m : Mem) (e : patchEntry) : Prop :=
  e.patchAddress ≠ 0 ∧ m e.patchAddress = e.patchValue ∧
    e.originalValue ≠ e.patchValue

/-- Some position of the search window of `e`, resolved at base `b`, passes
both the primary masked compare and (when configured) the verification
compare in memory `m`. -/
def existsMatch (m : Mem) (e : patchEntry) (b : Nat) : Bool :=
  (List.range e.maxOffset).any fun i =>
    ((m (b + e.startOffset + i) &&& e.andMask) ||| e.orMask == e.lookFor) &&
    ((e.verifyOffset == 0) ||
     ((m (b + e.startOffset + i + e.verifyOffset) &&& e.verifyAndMask) ||| e.verifyOrMask
        == e.verifyValue))

/-- Number of entries, up to the end-of-list marker, whose symbol resolves. -/
def resolvableCount (r : String → Nat) : List patchEntry → Nat
  | [] => 0
  | e :: rest =>
    match e.fname with
    | none => 0
    | some f => (if r f ≠ 0 then 1 else 0) + resolvableCount r rest

/-- Number of entries, up to the end-of-list marker, whose symbol resolves
and whose search window contains a full match in the memory state the apply
pass sees when it reaches the entry. -/
def matchedCount (r : String → Nat) (m : Mem) : List patchEntry → Nat
  | [] => 0
  | e :: rest =>
    match e.fname with
    | none => 0
    | some f =>
      (if r f ≠ 0 ∧ existsMatch m e (r f) = true then 1 else 0) +
        matchedCount r (patchOne r m f e).2.1 rest

def MIPS_NOP       : Nat := 0x00000000
def MIPS_ADDIU     : Nat := 0x24000000
def MIPS_LW        : Nat := 0x8C000000
def MIPS_TNE       : Nat := 0x00000036
def MIPS_RT_MASK   : Nat := 0x001F0000
def MIPS_BASE_SHFT : Nat := 21
def MIPS_RT_SHFT   : Nat := 16
def MIPS_REG_V0    : Nat := 2
def MIPS_REG_A0    : Nat := 4
def MIPS_TRAP_CODE : Nat := 0x00000300
def MIPS_AND_MASK  : Nat := 0xFFFFFFFF

/--
The static table `patchesForTunDevice` (source lines 99-132), parameterised
by `offsetof(struct sk_buff, sk)`, which the source takes from the kernel
headers.  C designated initialisers zero every unnamed field, so all result
fields start unset and `isPatched` starts false.
-/
def patchesForTunDevice (skOffset : Nat) : List patchEntry :=
  [ { fname := some "ip_forward", startAddress := 0, startOffset := 0, maxOffset := 10,
      lookFor := MIPS_LW + (MIPS_REG_A0 <<< MIPS_BASE_SHFT) + skOffset,
      andMask := MIPS_AND_MASK - MIPS_RT_MASK, orMask := 0,
      verifyOffset := 0, verifyValue := 0, verifyAndMask := 0, verifyOrMask := 0,
      patchOffset := 0, patchValue := MIPS_ADDIU + (MIPS_REG_V0 <<< MIPS_RT_SHFT),
      patchAddress := 0, originalValue := 0, isPatched := false },
    { fname := some "netif_receive_skb", startAddress := 0, startOffset := 0, maxOffset := 10,
      lookFor := MIPS_LW + (MIPS_REG_A0 <<< MIPS_BASE_SHFT) + skOffset,
      andMask := MIPS_AND_MASK - MIPS_RT_MASK, orMask := 0,
      verifyOffset := 1, verifyValue := MIPS_TNE + MIPS_TRAP_CODE,
      verifyAndMask := MIPS_AND_MASK - MIPS_RT_MASK, verifyOrMask := 0,
      patchOffset := 1, patchValue := MIPS_NOP,
      patchAddress := 0, originalValue := 0, isPatched := false },
    { fname := some "__netif_receive_skb", startAddress := 0, startOffset := 0, maxOffset := 8,
      lookFor := MIPS_LW + (MIPS_REG_A0 <<< MIPS_BASE_SHFT) + skOffset,
      andMask := MIPS_AND_MASK - MIPS_RT_MASK, orMask := 0,
      verifyOffset := 1, verifyValue := MIPS_TNE + MIPS_TRAP_CODE,
      verifyAndMask := MIPS_AND_MASK - MIPS_RT_MASK, verifyOrMask := 0,
      patchOffset := 1, patchValue := MIPS_NOP,
      patchAddress := 0, originalValue := 0, isPatched := false },
    { fname := none, startAddress := 0, startOffset := 0, maxOffset := 0,
      lookFor := 0, andMask := 0, orMask := 0,
      verifyOffset := 0, verifyValue := 0, verifyAndMask := 0, verifyOrMask := 0,
      patchOffset := 0, patchValue := 0,
      patchAddress := 0, originalValue := 0, isPatched := false } ]

/-- Example memory: word 5 at address 1, zero elsewhere. -/
def exMem : Mem := fun a => if a = 1 then 5 else 0

/-- Example memory that is zero everywhere. -/
def exZeroMem : Mem := fun _ => 0

/-- Example resolver mapping every symbol to base address 1. -/
def exResolve : String → Nat := fun _ => 1

/-- Example resolver that resolves nothing (`kallsyms_lookup_name` returns 0). -/
def exResolveNone : String → Nat := fun _ => 0

/-- Example entry whose pattern (word 5) sits at the resolved base address 1;
it patches the matched word itself (`patchOffset = 0`) to 99. -/
def exHit : patchEntry :=
  { fname := some "f", startAddress := 0, startOffset := 0, maxOffset := 1,
    lookFor := 5, andMask := 0xFFFFFFFF, orMask := 0,
    verifyOffset := 0, verifyValue := 0, verifyAndMask := 0, verifyOrMask := 0,
    patchOffset := 0, patchValue := 99, patchAddress := 0, originalValue := 0,
    isPatched := false }

/-- Example entry that looks for the word 99 (left behind by `exHit`) at the
same address and patches it to 77: its patch address aliases `exHit`'s. -/
def exAlias : patchEntry :=
  { exHit with fname := some "g", lookFor := 99, patchValue := 77 }

/-- The end-of-list marker entry (`fname = NULL`, all other fields zero). -/
def exEnd : patchEntry :=
  { fname := none, startAddress := 0, startOffset := 0, maxOffset := 0,
    lookFor := 0, andMask := 0, orMask := 0,
    verifyOffset := 0, verifyValue := 0, verifyAndMask := 0, verifyOrMask := 0,
    patchOffset := 0, patchValue := 0, patchAddress := 0, originalValue := 0,
    isPatched := false }

/-- The state of `exHit` after a successful application at base 1. -/
def exHitApplied : patchEntry :=
  { exHit with
    startAddress := 1, patchAddress := 1, originalValue := 5, isPatched := true }

/-- Example entry whose patch target (offset 1) already holds `patchValue`. -/
def exGuard : patchEntry :=
  { fname := some "x", startAddress := 0, startOffset := 0, maxOffset := 3,
    lookFor := 0, andMask := 0, orMask := 1,
    verifyOffset := 0, verifyValue := 0, verifyAndMask := 0, verifyOrMask := 0,
    patchOffset := 1, patchValue := 42, patchAddress := 0, originalValue := 0,
    isPatched := false }

/-- Memory with the replacement value 42 already present at address 2. -/
def exGuardMem : Mem := fun a => if a = 2 then 42 else 0

/-- Example entry with a configured verification word at offset 1. -/
def exVerify : patchEntry :=
  { fname := some "v", startAddress := 0, startOffset := 0, maxOffset := 6,
    lookFor := 5, andMask := 15, orMask := 0,
    verifyOffset := 1, verifyValue := 8, verifyAndMask := 15, verifyOrMask := 0,
    patchOffset := 0, patchValue := 100, patchAddress := 0, originalValue := 0,
    isPatched := false }

/-- Memory with a masked hit at 1 whose verification (at 2) fails, and a
masked hit at 3 whose verification (at 4) succeeds. -/
def exVerifyMem : Mem :=
  fun a => if a = 1 then 5 else if a = 3 then 5 else if a = 4 then 8 else 0

/-- Example entry with window length 1 and `patchOffset = 1`: its idempotency
check reads one word past the search window. -/
def exReads : patchEntry :=
  { fname := some "w", startAddress := 0, startOffset := 0, maxOffset := 1,
    lookFor := 7, andMask := 0, orMask := 0,
    verifyOffset := 0, verifyValue := 0, verifyAndMask := 0, verifyOrMask := 0,
    patchOffset := 1, patchValue := 5, patchAddress := 0, originalValue := 0,
    isPatched := false }

/-- Example entry in the applied state: patch address 5, original value 7. -/
def exApplied : patchEntry :=
  { fname := some "z", startAddress := 1, startOffset := 0, maxOffset := 1,
    lookFor := 0, andMask := 0, orMask := 0,
    verifyOffset := 0, verifyValue := 0, verifyAndMask := 0, verifyOrMask := 0,
    patchOffset := 0, patchValue := 3, patchAddress := 5, originalValue := 7,
    isPatched := true }

/-- The loop condition `while (patch->fname)` of both passes. -/
def hasName (y : patchEntry) : Bool :=
  y.fname.isSome

/-- The entries the two passes actually process: the prefix before the first
null-`fname` end-of-list marker. -/
abbrev activePart (L : List patchEntry) : List patchEntry :=
  L.takeWhile hasName

theorem writeMem_same (m : Mem) (a v : Nat) : writeMem m a v a = v := by
  simp [writeMem]

theorem writeMem_ne (m : Mem) (a v x : Nat) (h : x ≠ a) : writeMem m a v x = m x := by
  simp [writeMem, h]

theorem takeWhile_cons_pos {α} (p : α → Bool) (a : α) (l : List α) (h : p a = true) :
    (a :: l).takeWhile p = a :: l.takeWhile p := by
  simp [List.takeWhile, h]

theorem scanFrom_found_facts (m : Mem) (e : patchEntry) :
    ∀ (k p q : Nat), scanFrom m e p k = ScanResult.found q →
      p ≤ q ∧ q < p + k ∧ primMatch m e q ∧
      (e.verifyOffset ≠ 0 → verMatch m e q) ∧
      m (q + e.patchOffset) ≠ e.patchValue := by
  intro k
  induction k with
  | zero => intro p q h; simp [scanFrom] at h
  | succ n ih =>
    intro p q h
    simp only [scanFrom] at h
    by_cases h1 : m (p + e.patchOffset) = e.patchValue
    · rw [if_pos h1] at h; cases h
    · rw [if_neg h1] at h
      by_cases h2 : (m p &&& e.andMask) ||| e.orMask = e.lookFor
      · rw [if_pos h2] at h
        by_cases h3 : e.verifyOffset ≠ 0
        · rw [if_pos h3] at h
          by_cases h4 :
              (m (p + e.verifyOffset) &&& e.verifyAndMask) ||| e.verifyOrMask ≠ e.verifyValue
          · rw [if_pos h4] at h
            rcases ih (p + 1) q h with ⟨ha, hb, hc, hd, he⟩
            exact ⟨by omega, by omega, hc, hd, he⟩
          · rw [if_neg h4] at h
            cases h
            exact ⟨Nat.le_refl _, by omega, h2, fun _ => not_not.mp h4, h1⟩
        · rw [if_neg h3] at h
          cases h
          exact ⟨Nat.le_refl _, by omega, h2, fun hv => absurd hv h3, h1⟩
      · rw [if_neg h2] at h
        rcases ih (p + 1) q h with ⟨ha, hb, hc, hd, he⟩
        exact ⟨by omega, by omega, hc, hd, he⟩

theorem patchOne_fname (r : String → Nat) (m : Mem) (f : String) (e : patchEntry) :
    ((patchOne r m f e).1).fname = e.fname := by
  unfold patchOne
  by_cases hb : r f = 0
  · simp [hb]
  · simp only [hb, if_neg]
    cases scanFrom m e (r f + e.startOffset) e.maxOffset <;> rfl

theorem patchOne_cases (r : String → Nat) (m : Mem) (f : String) (e : patchEntry) :
    (r f = 0 ∧ patchOne r m f e = (e, m, 0)) ∨
    (r f ≠ 0 ∧ ∃ q, scanFrom m e (r f + e.startOffset) e.maxOffset = ScanResult.found q ∧
      patchOne r m f e =
        ({ e with startAddress := r f, patchAddress := q + e.patchOffset,
                  originalValue := m (q + e.patchOffset), isPatched := true },
         writeMem m (q + e.patchOffset) e.patchValue, 1)) ∨
    (r f ≠ 0 ∧ patchOne r m f e = ({ e with startAddress := r f }, m, 0)) := by
  by_cases hb : r f = 0
  · exact Or.inl ⟨hb, by simp [patchOne, hb]⟩
  · rcases hs : scanFrom m e (r f + e.startOffset) e.maxOffset with q | _ | _
    · exact Or.inr (Or.inl ⟨hb, q, rfl, by simp [patchOne, hb, hs]⟩)

    · exact Or.inr (Or.inr ⟨hb, by simp [patchOne, hb, hs]⟩)
    · exact Or.inr (Or.inr ⟨hb, by simp [patchOne, hb, hs]⟩)

theorem applyAll_cons_none (r : String → Nat) (m : Mem) (e : patchEntry)
    (rest : List patchEntry) (hfn : e.fname = none) :
    applyAll r m (e :: rest) = (e :: rest, m, 0) := by
  simp [applyAll, hfn]

theorem applyAll_cons_some (r : String → Nat) (m : Mem) (e : patchEntry)
    (rest : List patchEntry) (f : String) (hfn : e.fname = some f) :
    applyAll r m (e :: rest) =
      ((patchOne r m f e).1 :: (applyAll r (patchOne r m f e).2.1 rest).1,
       (applyAll r (patchOne r m f e).2.1 rest).2.1,
       (patchOne r m f e).2.2 + (applyAll r (patchOne r m f e).2.1 rest).2.2) := by
  simp [applyAll, hfn]

theorem restoreAll_cons_none (m : Mem) (e : patchEntry) (rest : List patchEntry)
    (hfn : e.fname = none) :
    restoreAll m (e :: rest) = (e :: rest, m) := by
  simp [restoreAll, hfn]

theorem restoreAll_cons_some (m : Mem) (e : patchEntry) (rest : List patchEntry)
    (f : String) (hfn : e.fname = some f) :
    restoreAll m (e :: rest) =
      ((restoreEntry m e).1 :: (restoreAll (restoreEntry m e).2 rest).1,
       (restoreAll (restoreEntry m e).2 rest).2) := by
  simp [restoreAll, hfn]

theorem applyAll_frame (r : String → Nat) :
    ∀ (L : List patchEntry) (m : Mem) (a : Nat),
      (∀ x ∈ activePart (applyAll r m L).1, x.isPatched = true → x.patchAddress ≠ a) →
      (applyAll r m L).2.1 a = m a := by
  intro L
  induction L with
  | nil => intro m a _; rfl
  | cons e rest ih =>
    intro m a h
    cases hfn : e.fname with
    | none => rw [applyAll_cons_none r m e rest hfn]
    | some f =>
      have hfn1 : hasName (patchOne r m f e).1 = true := by
        simp [hasName, patchOne_fname, hfn]
      have hact : activePart (applyAll r m (e :: rest)).1 =
          (patchOne r m f e).1 :: activePart (applyAll r (patchOne r m f e).2.1 rest).1 := by
        rw [applyAll_cons_some r m e rest f hfn]
        exact List.takeWhile_cons_of_pos hfn1
      rw [hact] at h
      have hhead := h _ (List.mem_cons_self _ _)
      have htail := fun x hx => h x (List.mem_cons_of_mem _ hx)
      rw [applyAll_cons_some r m e rest f hfn]
      show (applyAll r (patchOne r m f e).2.1 rest).2.1 a = m a
      rcases patchOne_cases r m f e with ⟨hb, hp⟩ | ⟨hb, q, hs, hp⟩ | ⟨hb, hp⟩
      · rw [hp] at htail ⊢
        exact ih m a htail
      · rw [hp] at htail hhead ⊢
        have hne : q + e.patchOffset ≠ a := hhead rfl
        exact (ih _ a htail).trans (writeMem_ne _ _ _ _ (Ne.symm hne))
      · rw [hp] at htail ⊢
        exact ih m a htail

theorem restoreAll_frame :
    ∀ (L : List patchEntry) (m : Mem) (a : Nat),
      (∀ x ∈ activePart L, x.isPatched = true → x.patchAddress ≠ a) →
      (restoreAll m L).2 a = m a := by
  intro L
  induction L with
  | nil => intro m a _; rfl
  | cons e rest ih =>
    intro m a h
    cases hfn : e.fname with
    | none => rw [restoreAll_cons_none m e rest hfn]
    | some f =>
      have hfn1 : hasName e = true := by simp [hasName, hfn]
      have hact : activePart (e :: rest) = e :: activePart rest :=
        List.takeWhile_cons_of_pos hfn1
      rw [hact] at h
      have hhead := h _ (List.mem_cons_self _ _)
      have htail := fun x hx => h x (List.mem_cons_of_mem _ hx)
      rw [restoreAll_cons_some m e rest f hfn]
      show (restoreAll (restoreEntry m e).2 rest).2 a = m a
      by_cases hpat : e.isPatched
      · have hne : e.patchAddress ≠ a := hhead hpat
        have hre : (restoreEntry m e).2 = writeMem m e.patchAddress e.originalValue := by
          simp [restoreEntry, hpat]
        rw [hre]
        exact (ih _ a htail).trans (writeMem_ne _ _ _ _ (Ne.symm hne))
      · have hre : (restoreEntry m e).2 = m := by simp [restoreEntry, hpat]
        rw [hre]
        exact ih m a htail

theorem restoreAll_write :
    ∀ (L : List patchEntry) (m : Mem) (d : patchEntry),
      d ∈ activePart L → d.isPatched = true →
      (∀ x ∈ activePart L, x ≠ d → x.isPatched = true → x.patchAddress ≠ d.patchAddress) →
      (restoreAll m L).2 d.patchAddress = d.originalValue := by
  intro L
  induction L with
  | nil => intro m d hd _ _; simp [activePart] at hd
  | cons e rest ih =>
    intro m d hd hpat hdist
    cases hfn : e.fname with
    | none =>
      rw [activePart, List.takeWhile_cons_of_neg (by simp [hasName, hfn])] at hd
      simp at hd
    | some f =>
      have hfn1 : hasName e = true := by simp [hasName, hfn]
      have hact : activePart (e :: rest) = e :: activePart rest :=
        List.takeWhile_cons_of_pos hfn1
      rw [hact] at hd hdist
      rw [restoreAll_cons_some m e rest f hfn]
      show (restoreAll (restoreEntry m e).2 rest).2 d.patchAddress = d.originalValue
      rcases List.mem_cons.mp hd with hde | hdrest
      · subst hde
        have hre : (restoreEntry m d).2 = writeMem m d.patchAddress d.originalValue := by
          simp [restoreEntry, hpat]
        rw [hre]
        by_cases hin : d ∈ activePart rest
        · exact ih _ d hin hpat (fun x hx => hdist x (List.mem_cons_of_mem _ hx))
        · have hframe : ∀ x ∈ activePart rest, x.isPatched = true →
              x.patchAddress ≠ d.patchAddress := fun x hx hxp =>
            hdist x (List.mem_cons_of_mem _ hx) (fun hxd => hin (hxd ▸ hx)) hxp
          exact (restoreAll_frame rest _ d.patchAddress hframe).trans (writeMem_same _ _ _)
      · exact ih _ d hdrest hpat (fun x hx => hdist x (List.mem_cons_of_mem _ hx))

/--
C1: at every scan position the word at `position + patchOffset` is checked
before the primary masked compare; when it already equals `patchValue` the
scan stops immediately with `alreadyApplied`, and the apply pass then writes
no memory, changes no field except `startAddress`, leaves the applied flag as
it was (false for a fresh entry) and counts nothing for that descriptor.
-/
theorem c1_already_applied_guard (r : String → Nat) (m : Mem) (e : patchEntry)
    (p k : Nat) (f : String)
    (hk : 0 < k) (hg : m (p + e.patchOffset) = e.patchValue)
    (hb : r f ≠ 0) (hg0 : m (r f + e.startOffset + e.patchOffset) = e.patchValue)
    (hm0 : 0 < e.maxOffset) :
    scanFrom m e p k = ScanResult.alreadyApplied ∧
    patchOne r m f e = ({ e with startAddress := r f }, m, 0) := by
  constructor
  · cases k with
    | zero => omega
    | succ n => simp only [scanFrom]; rw [if_pos hg]
  · have hscan : scanFrom m e (r f + e.startOffset) e.maxOffset =
        ScanResult.alreadyApplied := by
      cases hmo : e.maxOffset with
      | zero => omega
      | succ n => simp only [scanFrom]; rw [if_pos hg0]
    simp [patchOne, hb, hscan]

/-- C1 witness: concrete run of the guard at base 1 with the replacement
value already present at address 2. -/
theorem c1_witness :
    scanFrom exGuardMem exGuard 1 3 = ScanResult.alreadyApplied ∧
    patchOne exResolve exGuardMem "x" exGuard =
      ({ exGuard with startAddress := exResolve "x" }, exGuardMem, 0) :=
  c1_already_applied_guard exResolve exGuardMem exGuard 1 3 "x"
    (by decide) (by decide) (by decide) (by decide) (by decide)

/--
C2: with a configured verification offset, a masked hit whose verification
fails does not stop the scan; the scanner reports `found` at the first
in-window position where both the primary compare and the verification
compare succeed, provided the already-applied guard fires nowhere up to that
position.
-/
theorem c2_first_verified_match (m : Mem) (e : patchEntry) (p k j : Nat)
    (hv : e.verifyOffset ≠ 0) (hj : j < k)
    (hm : primMatch m e (p + j)) (hver : verMatch m e (p + j))
    (hfirst : ∀ i, i < j → ¬(primMatch m e (p + i) ∧ verMatch m e (p + i)))
    (hguard : ∀ i, i ≤ j → m (p + i + e.patchOffset) ≠ e.patchValue) :
    scanFrom m e p k = ScanResult.found (p + j) := by
  induction j generalizing p k with
  | zero =>
    cases k with
    | zero => omega
    | succ n =>
      have hg := hguard 0 (Nat.le_refl 0)
      simp only [Nat.add_zero] at hg hm hver ⊢
      simp only [scanFrom]
      rw [if_neg hg, if_pos hm, if_pos hv, if_neg (not_not.mpr hver)]
  | succ j' ih =>
    cases k with
    | zero => omega
    | succ n =>
      have hg0 := hguard 0 (Nat.zero_le _)
      simp only [Nat.add_zero] at hg0
      have hrec : scanFrom m e (p + 1) n = ScanResult.found (p + 1 + j') := by
        apply ih
        · omega
        · rw [show p + 1 + j' = p + (j' + 1) by omega]; exact hm
        · rw [show p + 1 + j' = p + (j' + 1) by omega]; exact hver
        · intro i hi
          rw [show p + 1 + i = p + (i + 1) by omega]
          exact hfirst (i + 1) (by omega)
        · intro i hi
          rw [show p + 1 + i + e.patchOffset = p + (i + 1) + e.patchOffset by omega]
          exact hguard (i + 1) (by omega)
      simp only [scanFrom]
      rw [if_neg hg0]
      by_cases h2 : (m p &&& e.andMask) ||| e.orMask = e.lookFor
      · rw [if_pos h2, if_pos hv]
        have hnv : ¬ verMatch m e p := fun hvm => hfirst 0 (by omega) ⟨h2, hvm⟩
        rw [if_pos hnv]
        rw [show p + (j' + 1) = p + 1 + j' by omega]
        exact hrec
      · rw [if_neg h2]
        rw [show p + (j' + 1) = p + 1 + j' by omega]
        exact hrec

/-- C2 witness: the scanner skips the hit at position 1 (verification at 2
fails) and reports the hit at position 3 (verification at 4 succeeds). -/
theorem c2_witness : scanFrom exVerifyMem exVerify 0 6 = ScanResult.found (0 + 3) :=
  c2_first_verified_match exVerifyMem exVerify 0 6 3
    (by decide) (by decide) (by decide) (by decide) (by decide) (by decide)

theorem scanReads_bound (m : Mem) (e : patchEntry) :
    ∀ (k p a : Nat), a ∈ scanReadsFrom m e p k →
      p ≤ a ∧ a < p + k + max e.patchOffset e.verifyOffset := by
  intro k
  have hpo : e.patchOffset ≤ max e.patchOffset e.verifyOffset := Nat.le_max_left _ _
  have hvo : e.verifyOffset ≤ max e.patchOffset e.verifyOffset := Nat.le_max_right _ _
  induction k with
  | zero => intro p a ha; simp [scanReadsFrom] at ha
  | succ n ih =>
    intro p a ha
    simp only [scanReadsFrom] at ha
    by_cases h1 : m (p + e.patchOffset) = e.patchValue
    · rw [if_pos h1] at ha
      simp only [List.mem_cons, List.not_mem_nil, or_false] at ha
      rcases ha with h | h <;> omega
    · rw [if_neg h1] at ha
      by_cases h2 : (m p &&& e.andMask) ||| e.orMask = e.lookFor
      · rw [if_pos h2] at ha
        by_cases h3 : e.verifyOffset ≠ 0
        · rw [if_pos h3] at ha
          by_cases h4 :
              (m (p + e.verifyOffset) &&& e.verifyAndMask) ||| e.verifyOrMask ≠ e.verifyValue
          · rw [if_pos h4] at ha
            simp only [List.mem_cons] at ha
            rcases ha with h | h | h | h
            · omega
            · omega
            · omega
            · rcases ih (p + 1) a h with ⟨hl, hr⟩
              omega
          · rw [if_neg h4] at ha
            simp only [List.mem_cons, List.not_mem_nil, or_false] at ha
            rcases ha with h | h | h | h <;> omega
        · rw [if_neg h3] at ha
          simp only [List.mem_cons, List.not_mem_nil, or_false] at ha
          rcases ha with h | h | h <;> omega
      · rw [if_neg h2] at ha
        simp only [List.mem_cons] at ha
        rcases ha with h | h | h
        · omega
        · omega
        · rcases ih (p + 1) a h with ⟨hl, hr⟩
          omega

/--
C3 counterexample: the claim that the scanner never reads a word outside
`[startOffset, startOffset + maxOffset)` relative to the resolved base is
false.  For `exReads` (base 0, `startOffset = 0`, `maxOffset = 1`,
`patchOffset = 1`) the very first iteration reads address 1 for the
idempotency check, although the window is `[0, 1)`.
-/
theorem c3_counterexample :
    1 ∈ scanReadsFrom exZeroMem exReads (0 + exReads.startOffset) exReads.maxOffset ∧
    ¬ (1 < 0 + exReads.startOffset + exReads.maxOffset) := by
  decide

/--
C3 (amended): every word address the scanner reads at resolved base `b` lies
in `[startOffset, startOffset + maxOffset + max patchOffset verifyOffset)`
relative to `b`: the primary compare stays inside the configured window, but
the idempotency check and the verification compare may read up to
`max patchOffset verifyOffset` words past it.
-/
theorem c3_reads_window (m : Mem) (e : patchEntry) (b a : Nat)
    (ha : a ∈ scanReadsFrom m e (b + e.startOffset) e.maxOffset) :
    b + e.startOffset ≤ a ∧
    a < b + e.startOffset + e.maxOffset + max e.patchOffset e.verifyOffset :=
  scanReads_bound m e e.maxOffset (b + e.startOffset) a ha

/-- C3 witness: the out-of-window read at address 1 of `exReads` still lies
below the corrected bound `0 + 0 + 1 + max 1 0`. -/
theorem c3_witness :
    0 + exReads.startOffset ≤ 1 ∧
    1 < 0 + exReads.startOffset + exReads.maxOffset + max exReads.patchOffset
          exReads.verifyOffset :=
  c3_reads_window exZeroMem exReads 0 1 (by decide)

/--
C4 counterexample: the claim that the reverse operation clears the stored
result fields is false.  Reversing the applied entry `exApplied` keeps
`patchAddress = 5` and `originalValue = 7` (the source lines 205-211 only
clear `isPatched`).
-/
theorem c4_counterexample :
    ((restoreEntry exZeroMem exApplied).1).patchAddress = 5 ∧
    ((restoreEntry exZeroMem exApplied).1).originalValue = 7 ∧
    exApplied.isPatched = true ∧ ¬ ((5 : Nat) = 0) := by
  decide

/--
C4 (amended): the reverse operation is a no-op when the applied flag is
false; when the flag is true it writes the stored original value back to the
recorded patch address and clears the applied flag only — the patch address
and original value fields are retained — and a second reversal is a no-op,
so the operation is safe to repeat.
-/
theorem c4_restore_behaviour (m : Mem) (e : patchEntry) :
    (e.isPatched = false → restoreEntry m e = (e, m)) ∧
    ((restoreEntry m e).1).isPatched = false ∧
    ((restoreEntry m e).1).patchAddress = e.patchAddress ∧
    ((restoreEntry m e).1).originalValue = e.originalValue ∧
    (e.isPatched = true →
      (restoreEntry m e).2 = writeMem m e.patchAddress e.originalValue) ∧
    restoreEntry (restoreEntry m e).2 (restoreEntry m e).1 =
      ((restoreEntry m e).1, (restoreEntry m e).2) := by
  by_cases hp : e.isPatched <;> simp [restoreEntry, hp]

/-- C4 witness: the amended description evaluated on the applied entry
`exApplied`. -/
theorem c4_witness :
    ((restoreEntry exZeroMem exApplied).1).isPatched = false ∧
    ((restoreEntry exZeroMem exApplied).1).patchAddress = exApplied.patchAddress ∧
    ((restoreEntry exZeroMem exApplied).1).originalValue = exApplied.originalValue ∧
    restoreEntry (restoreEntry exZeroMem exApplied).2 (restoreEntry exZeroMem exApplied).1 =
      ((restoreEntry exZeroMem exApplied).1, (restoreEntry exZeroMem exApplied).2) :=
  ⟨(c4_restore_behaviour exZeroMem exApplied).2.1,
   (c4_restore_behaviour exZeroMem exApplied).2.2.1,
   (c4_restore_behaviour exZeroMem exApplied).2.2.2.1,
   (c4_restore_behaviour exZeroMem exApplied).2.2.2.2.2⟩

/--
C5: for a fresh entry (flag false, patch address unset), after one pass of
the apply loop the applied flag is true exactly when the result fields hold
live data from a successful, not yet reversed application (non-null patch
address whose word holds the replacement value, with an original value that
differs from it); when the flag stays false the patch address stays unset;
after the reverse step the flag is false again and the result fields no
longer hold live data.  The entries of the static table start with the flag
false and all result fields unset.
-/
theorem c5_flag_iff_result_valid (r : String → Nat) (m : Mem) (f : String)
    (e : patchEntry) (hp : e.isPatched = false) (ha : e.patchAddress = 0) :
    (((patchOne r m f e).1).isPatched = true ↔
        resultValid (patchOne r m f e).2.1 (patchOne r m f e).1) ∧
    (((patchOne r m f e).1).isPatched = false → ((patchOne r m f e).1).patchAddress = 0) ∧
    ((restoreEntry (patchOne r m f e).2.1 (patchOne r m f e).1).1).isPatched = false ∧
    ¬ resultValid (restoreEntry (patchOne r m f e).2.1 (patchOne r m f e).1).2
        (restoreEntry (patchOne r m f e).2.1 (patchOne r m f e).1).1 ∧
    (∀ skOffset : Nat, ∀ x ∈ patchesForTunDevice skOffset,
        x.isPatched = false ∧ x.patchAddress = 0 ∧ x.startAddress = 0 ∧
          x.originalValue = 0) := by
  have htable : ∀ skOffset : Nat, ∀ x ∈ patchesForTunDevice skOffset,
      x.isPatched = false ∧ x.patchAddress = 0 ∧ x.startAddress = 0 ∧
        x.originalValue = 0 := by
    intro sk x hx
    simp only [patchesForTunDevice, List.mem_cons, List.not_mem_nil, or_false] at hx
    rcases hx with h | h | h | h <;> subst h <;> exact ⟨rfl, rfl, rfl, rfl⟩
  rcases patchOne_cases r m f e with ⟨hb, hpo⟩ | ⟨hb, q, hs, hpo⟩ | ⟨hb, hpo⟩
  · rw [hpo]
    refine ⟨?_, fun _ => ha, ?_, ?_, htable⟩
    · simp only [hp, resultValid, ha]
      constructor
      · intro h; cases h
      · rintro ⟨h0, -, -⟩; exact absurd rfl h0
    · simp [restoreEntry, hp]
    · simp only [restoreEntry, hp, Bool.false_eq_true, if_false]
      rintro ⟨h0, -, -⟩
      rw [ha] at h0
      exact absurd rfl h0
  · rcases scanFrom_found_facts m e e.maxOffset (r f + e.startOffset) q hs with
      ⟨hq1, hq2, hq3, hq4, hq5⟩
    have hb1 : 0 < r f := Nat.pos_of_ne_zero hb
    have hpa0 : q + e.patchOffset ≠ 0 := by omega
    rw [hpo]
    refine ⟨?_, ?_, ?_, ?_, htable⟩
    · constructor
      · intro _
        exact ⟨hpa0, writeMem_same _ _ _, hq5⟩
      · intro _
        rfl
    · intro hc
      exact absurd hc (by simp)
    · rfl
    · rintro ⟨-, h2, h3⟩
      have hmm : writeMem (writeMem m (q + e.patchOffset) e.patchValue)
          (q + e.patchOffset) (m (q + e.patchOffset)) (q + e.patchOffset) =
          m (q + e.patchOffset) := writeMem_same _ _ _
      exact hq5 (hmm.symm.trans h2)
  · rw [hpo]
    refine ⟨?_, fun _ => ha, ?_, ?_, htable⟩
    · simp only [hp, resultValid, ha]
      constructor
      · intro h; cases h
      · rintro ⟨h0, -, -⟩; exact absurd rfl h0
    · simp [restoreEntry, hp]
    · simp only [restoreEntry, hp, Bool.false_eq_true, if_false]
      rintro ⟨h0, -, -⟩
      rw [ha] at h0
      exact absurd rfl h0

/-- C5 witness: the invariant evaluated on a fresh entry that gets applied at
base 1. -/
theorem c5_witness :
    (((patchOne exResolve exMem "f" exHit).1).isPatched = true ↔
        resultValid (patchOne exResolve exMem "f" exHit).2.1
          (patchOne exResolve exMem "f" exHit).1) ∧
    ((restoreEntry (patchOne exResolve exMem "f" exHit).2.1
        (patchOne exResolve exMem "f" exHit).1).1).isPatched = false :=
  ⟨(c5_flag_iff_result_valid exResolve exMem "f" exHit rfl rfl).1,
   (c5_flag_iff_result_valid exResolve exMem "f" exHit rfl rfl).2.2.1⟩

/--
C6 counterexample: the apply/reverse round trip is not bit-exact for every
successfully applied descriptor when patch addresses alias.  With `exHit`
(patches address 1 from 5 to 99) followed by `exAlias` (patches the same
address from 99 to 77), both apply successfully; the reverse pass restores
`exHit`'s original 5 and then overwrites it with `exAlias`'s original 99, so
re-reading `exHit`'s recorded patch address yields 99, not its stored
original 5.
-/
theorem c6_counterexample :
    ((applyAll exResolve exMem [exHit, exAlias, exEnd]).1.getD 0 exEnd).isPatched = true ∧
    ((applyAll exResolve exMem [exHit, exAlias, exEnd]).1.getD 0 exEnd).patchAddress = 1 ∧
    ((applyAll exResolve exMem [exHit, exAlias, exEnd]).1.getD 0 exEnd).originalValue = 5 ∧
    (restoreAll (applyAll exResolve exMem [exHit, exAlias, exEnd]).2.1
        (applyAll exResolve exMem [exHit, exAlias, exEnd]).1).2 1 = 99 ∧
    ¬ ((99 : Nat) = 5) := by
  decide

/--
C6 (amended): for every descriptor that is successfully applied, provided no
other processed descriptor that is applied records the same patch address,
running the reverse pass after the apply pass and re-reading the word at the
recorded patch address yields exactly the value stored as the original
immediately before the patch write.
-/
theorem c6_apply_reverse_roundtrip (r : String → Nat) (m : Mem)
    (L : List patchEntry) (d : patchEntry)
    (hd : d ∈ activePart (applyAll r m L).1) (hp : d.isPatched = true)
    (hdist : ∀ x ∈ activePart (applyAll r m L).1, x ≠ d → x.isPatched = true →
      x.patchAddress ≠ d.patchAddress) :
    (restoreAll (applyAll r m L).2.1 (applyAll r m L).1).2 d.patchAddress =
      d.originalValue :=
  restoreAll_write (applyAll r m L).1 (applyAll r m L).2.1 d hd hp hdist

/-- C6 witness: a single applied descriptor round-trips: after apply and
reverse, its patch address reads back its stored original value 5. -/
theorem c6_witness :
    (restoreAll (applyAll exResolve exMem [exHit, exEnd]).2.1
        (applyAll exResolve exMem [exHit, exEnd]).1).2 exHitApplied.patchAddress =
      exHitApplied.originalValue :=
  c6_apply_reverse_roundtrip exResolve exMem [exHit, exEnd] exHitApplied
    (by decide) (by decide) (by decide)

/--
C7: across a full apply pass followed by a reverse pass, any word whose
address is not the recorded patch address of a descriptor holding the applied
flag is unchanged after the apply pass and still unchanged after the reverse
pass (with all descriptors starting unapplied, those flags mark exactly the
successfully applied descriptors).
-/
theorem c7_untouched_words (r : String → Nat) (m : Mem) (L : List patchEntry)
    (a : Nat) (_hfresh : ∀ x ∈ L, x.isPatched = false)
    (h : ∀ x ∈ activePart (applyAll r m L).1, x.isPatched = true →
      x.patchAddress ≠ a) :
    (applyAll r m L).2.1 a = m a ∧
    (restoreAll (applyAll r m L).2.1 (applyAll r m L).1).2 a = m a := by
  have h1 := applyAll_frame r L m a h
  have h2 := restoreAll_frame (applyAll r m L).1 (applyAll r m L).2.1 a h
  exact ⟨h1, h2.trans h1⟩

/-- C7 witness: address 0 is untouched by the apply/reverse cycle that
patches address 1. -/
theorem c7_witness :
    (applyAll exResolve exMem [exHit, exEnd]).2.1 0 = exMem 0 ∧
    (restoreAll (applyAll exResolve exMem [exHit, exEnd]).2.1
        (applyAll exResolve exMem [exHit, exEnd]).1).2 0 = exMem 0 :=
  c7_untouched_words exResolve exMem [exHit, exEnd] 0 (by decide) (by decide)

theorem scanFrom_found_existsMatch (m : Mem) (e : patchEntry) (b q : Nat)
    (hs : scanFrom m e (b + e.startOffset) e.maxOffset = ScanResult.found q) :
    existsMatch m e b = true := by
  rcases scanFrom_found_facts m e e.maxOffset (b + e.startOffset) q hs with
    ⟨h1, h2, h3, h4, -⟩
  unfold existsMatch
  rw [List.any_eq_true]
  refine ⟨q - (b + e.startOffset), ?_, ?_⟩
  · rw [List.mem_range]; omega
  · have hq : b + e.startOffset + (q - (b + e.startOffset)) = q := by omega
    simp only [hq, Bool.and_eq_true, Bool.or_eq_true, beq_iff_eq]
    refine ⟨h3, ?_⟩
    by_cases hv : e.verifyOffset = 0
    · exact Or.inl hv
    · exact Or.inr (h4 hv)

theorem applyAll_count_le_resolvable (r : String → Nat) :
    ∀ (L : List patchEntry) (m : Mem),
      (applyAll r m L).2.2 ≤ resolvableCount r L := by
  intro L
  induction L with
  | nil => intro m; exact Nat.le_refl 0
  | cons e rest ih =>
    intro m
    cases hfn : e.fname with
    | none =>
      rw [applyAll_cons_none r m e rest hfn]
      simp [resolvableCount, hfn]
    | some f =>
      rw [applyAll_cons_some r m e rest f hfn]
      show (patchOne r m f e).2.2 + (applyAll r (patchOne r m f e).2.1 rest).2.2 ≤ _
      have hres : resolvableCount r (e :: rest) =
          (if r f ≠ 0 then 1 else 0) + resolvableCount r rest := by
        simp [resolvableCount, hfn]
      rw [hres]
      have h2 := ih (patchOne r m f e).2.1
      rcases patchOne_cases r m f e with ⟨hb, hpo⟩ | ⟨hb, q, hs, hpo⟩ | ⟨hb, hpo⟩
      · have h1 : (patchOne r m f e).2.2 ≤ if r f ≠ 0 then 1 else 0 := by
          rw [hpo]; exact Nat.zero_le _
        exact Nat.add_le_add h1 h2
      · have h1 : (patchOne r m f e).2.2 ≤ if r f ≠ 0 then 1 else 0 := by
          rw [hpo]; simp [hb]
        exact Nat.add_le_add h1 h2
      · have h1 : (patchOne r m f e).2.2 ≤ if r f ≠ 0 then 1 else 0 := by
          rw [hpo]; exact Nat.zero_le _
        exact Nat.add_le_add h1 h2

theorem applyAll_count_le_matched (r : String → Nat) :
    ∀ (L : List patchEntry) (m : Mem),
      (applyAll r m L).2.2 ≤ matchedCount r m L := by
  intro L
  induction L with
  | nil => intro m; exact Nat.le_refl 0
  | cons e rest ih =>
    intro m
    cases hfn : e.fname with
    | none =>
      rw [applyAll_cons_none r m e rest hfn]
      simp [matchedCount, hfn]
    | some f =>
      rw [applyAll_cons_some r m e rest f hfn]
      show (patchOne r m f e).2.2 + (applyAll r (patchOne r m f e).2.1 rest).2.2 ≤ _
      have hmc : matchedCount r m (e :: rest) =
          (if r f ≠ 0 ∧ existsMatch m e (r f) = true then 1 else 0) +
            matchedCount r (patchOne r m f e).2.1 rest := by
        simp [matchedCount, hfn]
      rw [hmc]
      have h2 := ih (patchOne r m f e).2.1
      rcases patchOne_cases r m f e with ⟨hb, hpo⟩ | ⟨hb, q, hs, hpo⟩ | ⟨hb, hpo⟩
      · have h1 : (patchOne r m f e).2.2 ≤
            if r f ≠ 0 ∧ existsMatch m e (r f) = true then 1 else 0 := by
          rw [hpo]; exact Nat.zero_le _
        exact Nat.add_le_add h1 h2
      · have h1 : (patchOne r m f e).2.2 ≤
            if r f ≠ 0 ∧ existsMatch m e (r f) = true then 1 else 0 := by
          rw [hpo]
          simp [hb, scanFrom_found_existsMatch m e (r f) q hs]
        exact Nat.add_le_add h1 h2
      · have h1 : (patchOne r m f e).2.2 ≤
            if r f ≠ 0 ∧ existsMatch m e (r f) = true then 1 else 0 := by
          rw [hpo]; exact Nat.zero_le _
        exact Nat.add_le_add h1 h2

theorem applyAll_count_eq_countP (r : String → Nat) :
    ∀ (L : List patchEntry) (m : Mem), (∀ x ∈ L, x.isPatched = false) →
      (applyAll r m L).2.2 = ((applyAll r m L).1).countP (fun x => x.isPatched) := by
  intro L
  induction L with
  | nil => intro m _; rfl
  | cons e rest ih =>
    intro m hfresh
    have hfresh0 : e.isPatched = false := hfresh e (List.mem_cons_self _ _)
    have hfreshR : ∀ x ∈ rest, x.isPatched = false :=
      fun x hx => hfresh x (List.mem_cons_of_mem _ hx)
    cases hfn : e.fname with
    | none =>
      rw [applyAll_cons_none r m e rest hfn]
      show (0 : Nat) = (e :: rest).countP (fun x => x.isPatched)
      rw [eq_comm, List.countP_eq_zero]
      intro x hx
      simp [hfresh x hx]
    | some f =>
      rw [applyAll_cons_some r m e rest f hfn]
      show (patchOne r m f e).2.2 + (applyAll r (patchOne r m f e).2.1 rest).2.2 =
        ((patchOne r m f e).1 :: (applyAll r (patchOne r m f e).2.1 rest).1).countP
          (fun x => x.isPatched)
      rw [List.countP_cons]
      have hc := ih (patchOne r m f e).2.1 hfreshR
      rcases patchOne_cases r m f e with ⟨hb, hpo⟩ | ⟨hb, q, hs, hpo⟩ | ⟨hb, hpo⟩
      · have hcnt : (patchOne r m f e).2.2 = 0 := by rw [hpo]
        have hpt : ((patchOne r m f e).1).isPatched = false := by
          rw [hpo]; exact hfresh0
        have hzero : (if (fun x => x.isPatched) (patchOne r m f e).1 then 1 else 0) = 0 := by
          rw [show (fun x => x.isPatched) (patchOne r m f e).1 = false from hpt]
          decide
        rw [hcnt, hzero, hc]
        omega
      · have hcnt : (patchOne r m f e).2.2 = 1 := by rw [hpo]
        have hpt : ((patchOne r m f e).1).isPatched = true := by rw [hpo]
        have hone : (if (fun x => x.isPatched) (patchOne r m f e).1 then 1 else 0) = 1 := by
          rw [show (fun x => x.isPatched) (patchOne r m f e).1 = true from hpt]
          decide
        rw [hcnt, hone, hc]
        omega
      · have hcnt : (patchOne r m f e).2.2 = 0 := by rw [hpo]
        have hpt : ((patchOne r m f e).1).isPatched = false := by
          rw [hpo]; exact hfresh0
        have hzero : (if (fun x => x.isPatched) (patchOne r m f e).1 then 1 else 0) = 0 := by
          rw [show (fun x => x.isPatched) (patchOne r m f e).1 = false from hpt]
          decide
        rw [hcnt, hzero, hc]
        omega

/--
C8: starting from unapplied descriptors, the apply pass returns exactly the
number of newly applied patches (the descriptors whose applied flag it set),
and this count is at most `min M K`, where `M` counts the processed
descriptors whose symbol resolves and `K` counts those that resolve and whose
search window contains a full masked match (primary plus, when configured,
verification) in the memory the pass sees; already-applied stops contribute
nothing to the count.
-/
theorem c8_count_bounds (r : String → Nat) (m : Mem) (L : List patchEntry)
    (hfresh : ∀ x ∈ L, x.isPatched = false) :
    (applyAll r m L).2.2 = ((applyAll r m L).1).countP (fun x => x.isPatched) ∧
    (applyAll r m L).2.2 ≤ min (resolvableCount r L) (matchedCount r m L) :=
  ⟨applyAll_count_eq_countP r L m hfresh,
   Nat.le_min.mpr ⟨applyAll_count_le_resolvable r L m,
     applyAll_count_le_matched r L m⟩⟩

/-- C8 witness: the two-descriptor run (one hit plus the end marker) applies
one patch and respects both bounds. -/
theorem c8_witness :
    (applyAll exResolve exMem [exHit, exEnd]).2.2 =
      ((applyAll exResolve exMem [exHit, exEnd]).1).countP (fun x => x.isPatched) ∧
    (applyAll exResolve exMem [exHit, exEnd]).2.2 ≤
      min (resolvableCount exResolve [exHit, exEnd])
        (matchedCount exResolve exMem [exHit, exEnd]) :=
  c8_count_bounds exResolve exMem [exHit, exEnd] (by decide)

/--
C9: a descriptor whose symbol does not resolve is skipped without touching
memory or any of its fields, contributes nothing to the returned count, and
the pass continues with the remaining descriptors; the result for the whole
list is exactly the result for the tail.
-/
theorem c9_unresolved_skipped (r : String → Nat) (m : Mem) (e : patchEntry)
    (rest : List patchEntry) (f : String) (hf : e.fname = some f) (hr : r f = 0) :
    patchOne r m f e = (e, m, 0) ∧
    applyAll r m (e :: rest) =
      (e :: (applyAll r m rest).1, (applyAll r m rest).2.1, (applyAll r m rest).2.2) := by
  have hp : patchOne r m f e = (e, m, 0) := by simp [patchOne, hr]
  refine ⟨hp, ?_⟩
  rw [applyAll_cons_some r m e rest f hf, hp]
  simp

/-- C9 witness: with a resolver that resolves nothing, `exHit` is skipped
unchanged and the pass proceeds to the end marker. -/
theorem c9_witness :
    patchOne exResolveNone exMem "f" exHit = (exHit, exMem, 0) ∧
    applyAll exResolveNone exMem [exHit, exEnd] =
      (exHit :: (applyAll exResolveNone exMem [exEnd]).1,
       (applyAll exResolveNone exMem [exEnd]).2.1,
       (applyAll exResolveNone exMem [exEnd]).2.2) :=
  c9_unresolved_skipped exResolveNone exMem exHit [exEnd] "f" rfl rfl

/--
C10: when a descriptor's symbol resolves, the apply pass records the resolved
base address in its `startAddress` field whatever the scan outcome (found,
already applied or not found), and the reverse pass never changes any
entry's `startAddress`.
-/
theorem c10_startAddress_persists (r : String → Nat) (m : Mem) (f : String)
    (e : patchEntry) (hb : r f ≠ 0) :
    ((patchOne r m f e).1).startAddress = r f ∧
    (∀ (m' : Mem) (x : patchEntry), ((restoreEntry m' x).1).startAddress = x.startAddress) ∧
    (∀ (m' : Mem) (L : List patchEntry),
      ((restoreAll m' L).1).map (fun x => x.startAddress) =
        L.map (fun x => x.startAddress)) := by
  refine ⟨?_, ?_, ?_⟩
  · rcases patchOne_cases r m f e with ⟨hb0, _⟩ | ⟨-, q, hs, hpo⟩ | ⟨-, hpo⟩
    · exact absurd hb0 hb
    · rw [hpo]
    · rw [hpo]
  · intro m' x
    by_cases hx : x.isPatched <;> simp [restoreEntry, hx]
  · intro m' L
    induction L generalizing m' with
    | nil => rfl
    | cons x rest ih =>
      cases hfn : x.fname with
      | none => rw [restoreAll_cons_none m' x rest hfn]
      | some g =>
        rw [restoreAll_cons_some m' x rest g hfn]
        show ((restoreEntry m' x).1 :: (restoreAll (restoreEntry m' x).2 rest).1).map
            (fun y => y.startAddress) = (x :: rest).map (fun y => y.startAddress)
        simp only [List.map_cons]
        have h1 : ((restoreEntry m' x).1).startAddress = x.startAddress := by
          by_cases hx : x.isPatched <;> simp [restoreEntry, hx]
        rw [h1, ih]

/-- C10 witness: the resolved base 1 is recorded for `exHit` and survives the
reverse pass. -/
theorem c10_witness :
    ((patchOne exResolve exMem "f" exHit).1).startAddress = exResolve "f" ∧
    (∀ (m' : Mem) (x : patchEntry),
      ((restoreEntry m' x).1).startAddress = x.startAddress) ∧
    (∀ (m' : Mem) (L : List patchEntry),
      ((restoreAll m' L).1).map (fun x => x.startAddress) =
        L.map (fun x => x.startAddress)) :=
  c10_startAddress_persists exResolve exMem "f" exHit (by decide)
